import Mathlib

/-!
Verification of the `DerwenAI/ray_tutorial` notebooks.

The repository's own code consists of notebook cells: a Monte Carlo π
estimation and profiling exercise (`pi.ipynb`), a multiprocessing-pool
comparison (`ex_04_mult_pool.ipynb`), and guided tours of a distributed
runtime client API (remote objects, remote functions, actors, parallel
iterators).  The Python functions present in the notebooks are embedded
below, with real numbers idealising floats and rationals used where the
computation is exact; functions that can raise return `Option`.  The
distributed runtime itself is not part of the repository, so its
operations (`put`/`get`, remote task invocation, actor dispatch, iterator
sharding, pool `map`) are modelled from the specification's glossary.
-/

namespace RayTutorial

/-! ### The π-estimation notebook: `estimate_pi`

Source (`pi.ipynb`): `xs`, `ys` are the two arrays of `num_samples`
sampled coordinates, `inside = (xs**2.0 + ys**2.0) <= 1.0`,
`xys_inside = xys[inside]`, `in_circle = xys_inside.shape[0]`,
`approx_pi = 4.0 * in_circle / num_samples`.  The randomness is made
explicit: the sampled coordinate arrays are parameters.  The final
division raises `ZeroDivisionError` exactly when `num_samples = 0`,
hence the `Option` result. -/

/-- The number of sampled points inside the unit circle: the notebook
zips the two coordinate arrays, filters by the predicate
`x^2 + y^2 <= 1.0`, and takes the length of the result. -/
def in_circle (xs ys : List ℚ) : ℕ :=
  ((xs.zip ys).filter (fun p => decide (p.1 ^ 2 + p.2 ^ 2 ≤ 1))).length

/-- The value `4.0 * in_circle / num_samples` computed by `estimate_pi`
when the division is defined. -/
def approx_val (num_samples : ℕ) (xs ys : List ℚ) : ℚ :=
  4 * (in_circle xs ys : ℚ) / (num_samples : ℚ)

/-- `estimate_pi` from `pi.ipynb`, with the two sampled coordinate arrays
passed explicitly.  Dividing by `num_samples = 0` raises in Python, hence
`none` there. -/
def estimate_pi (num_samples : ℕ) (xs ys : List ℚ) : Option ℚ :=
  if num_samples = 0 then none else some (approx_val num_samples xs ys)

/-- The count described by the spec sentence: the number of indices `i`
below `n` with `xs[i]^2 + ys[i]^2 <= 1.0`. -/
def spec_count (n : ℕ) (xs ys : List ℚ) : ℕ :=
  ((List.range n).filter
    (fun i => decide ((xs.getD i 0) ^ 2 + (ys.getD i 0) ^ 2 ≤ 1))).length

lemma in_circle_le_length (xs ys : List ℚ) :
    in_circle xs ys ≤ (xs.zip ys).length :=
  List.length_filter_le _ _

lemma zip_eq_map_range :
    ∀ {n : ℕ} {xs ys : List ℚ}, xs.length = n → ys.length = n →
      xs.zip ys = (List.range n).map (fun i => (xs.getD i 0, ys.getD i 0)) := by
  intro n
  induction n with
  | zero =>
      intro xs ys hx hy
      have hx0 : xs = [] := List.length_eq_zero.mp hx
      have hy0 : ys = [] := List.length_eq_zero.mp hy
      simp [hx0, hy0]
  | succ m ih =>
      intro xs ys hx hy
      cases xs with
      | nil => simp at hx
      | cons x xt =>
        cases ys with
        | nil => simp at hy
        | cons y yt =>
          have hx1 : xt.length = m := by simpa using hx
          have hy1 : yt.length = m := by simpa using hy
          rw [List.range_succ_eq_map]
          simp only [List.zip_cons_cons, List.map_cons, List.map_map]
          congr 1
          rw [ih hx1 hy1]
          apply List.map_congr_left
          intro i _
          rfl

/-- With arrays of length `n`, the zip-filter count of the notebook code
equals the count over indices from the specification. -/
lemma in_circle_eq_spec_count {n : ℕ} {xs ys : List ℚ}
    (hx : xs.length = n) (hy : ys.length = n) :
    in_circle xs ys = spec_count n xs ys := by
  unfold in_circle spec_count
  rw [zip_eq_map_range hx hy, ← List.countP_eq_length_filter,
    ← List.countP_eq_length_filter, List.countP_map]
  rfl

/-- **Claim C1.**  For `num_samples ≥ 1` and coordinate arrays of that
length, `estimate_pi` returns exactly `4.0 * k / num_samples` where `k`
is the number of indices `i` with `xs[i]^2 + ys[i]^2 ≤ 1.0`, and the
returned estimate lies between `0.0` and `4.0` inclusive. -/
theorem estimate_pi_exact_and_bounded (n : ℕ) (xs ys : List ℚ)
    (hn : 1 ≤ n) (hx : xs.length = n) (hy : ys.length = n) :
    estimate_pi n xs ys = some (4 * (spec_count n xs ys : ℚ) / (n : ℚ)) ∧
    ∀ v, estimate_pi n xs ys = some v → 0 ≤ v ∧ v ≤ 4 := by
  have hn0 : n ≠ 0 := by omega
  have hnpos : (0 : ℚ) < (n : ℚ) := by exact_mod_cast Nat.pos_of_ne_zero hn0
  have hout : estimate_pi n xs ys = some (approx_val n xs ys) := by
    simp [estimate_pi, hn0]
  have hval : approx_val n xs ys = 4 * (spec_count n xs ys : ℚ) / (n : ℚ) := by
    unfold approx_val
    rw [in_circle_eq_spec_count hx hy]
  constructor
  · rw [hout, hval]
  · intro v hv
    rw [hout] at hv
    have hveq : v = approx_val n xs ys := by
      exact (Option.some.injEq _ _).mp hv.symm
    have hk : (in_circle xs ys : ℚ) ≤ (n : ℚ) := by
      have h1 : in_circle xs ys ≤ n := by
        have := in_circle_le_length xs ys
        rw [List.length_zip, hx, hy] at this
        simpa using this
      exact_mod_cast h1
    constructor
    · rw [hveq]
      unfold approx_val
      positivity
    · rw [hveq]
      unfold approx_val
      rw [div_le_iff₀ hnpos]
      have hk0 : (0 : ℚ) ≤ (in_circle xs ys : ℚ) := by positivity
      nlinarith

/-- Witness for C1 at a concrete input: two samples, one inside the unit
circle, giving the estimate `4 * 1 / 2 = 2`. -/
theorem estimate_pi_exact_and_bounded_witness :
    estimate_pi 2 [0, 2] [0, 0] =
      some (4 * (spec_count 2 [0, 2] [0, 0] : ℚ) / (2 : ℚ)) ∧
    estimate_pi 2 [0, 2] [0, 0] = some 2 := by
  refine ⟨(estimate_pi_exact_and_bounded 2 [0, 2] [0, 0] (by decide)
    (by decide) (by decide)).1, ?_⟩
  have h1 : in_circle [0, 2] [0, 0] = 1 := by
    norm_num [in_circle, List.filter_cons, List.filter_nil]
  simp [estimate_pi, approx_val, h1]
  norm_num

/-- **Claim C9.**  `estimate_pi` is defined exactly under the
precondition `num_samples ≥ 1`: with `num_samples = 0` the final
division raises (modelled as `none`), and with `num_samples ≥ 1` the
function is total. -/
theorem estimate_pi_defined_iff (xs ys : List ℚ) :
    estimate_pi 0 xs ys = none ∧
    ∀ n, 1 ≤ n → (estimate_pi n xs ys).isSome := by
  constructor
  · simp [estimate_pi]
  · intro n hn
    have hn0 : n ≠ 0 := by omega
    simp [estimate_pi, hn0]

/-- Witness for C9 at a concrete input. -/
theorem estimate_pi_defined_iff_witness :
    estimate_pi 0 [1] [1] = none ∧ (estimate_pi 3 [1] [1]).isSome :=
  ⟨(estimate_pi_defined_iff [1] [1]).1,
   (estimate_pi_defined_iff [1] [1]).2 3 (by decide)⟩

/-! ### The π-estimation notebook: `run_epoch` and `Sim`

`run_epoch` runs `num_trials` trials (serially, or via the remote
function `distrib_estimate_pi` which simply delegates to `estimate_pi`),
then computes `statistics.mean`, `statistics.stdev` and the percentage
error against `np.pi`.  The wall-clock duration and the per-trial random
coordinate draws are explicit parameters.  A Python list comprehension
that can raise is modelled by `mapOpt`: it evaluates the elements left to
right and fails as soon as one fails. -/

/-- Evaluate `f` on every element in order; `none` as soon as one
evaluation fails (a raising Python list comprehension). -/
def mapOpt {α β : Type} (f : α → Option β) : List α → Option (List β)
  | [] => some []
  | a :: t =>
    match f a, mapOpt f t with
    | some b, some bt => some (b :: bt)
    | _, _ => none

lemma mapOpt_eq_map_of_forall {α β : Type} (f : α → Option β) (g : α → β) :
    ∀ l : List α, (∀ a ∈ l, f a = some (g a)) → mapOpt f l = some (l.map g) := by
  intro l
  induction l with
  | nil => intro _; rfl
  | cons a t ih =>
      intro h
      have ha := h a (by simp)
      have ht := ih (fun x hx => h x (by simp [hx]))
      simp [mapOpt, ha, ht]

/-- `statistics.mean` of the per-trial estimates (exact rational
arithmetic idealising floats). -/
def mean (pis : List ℚ) : ℚ := pis.sum / (pis.length : ℚ)

/-- The sample variance used by `statistics.stdev`: sum of squared
deviations from the mean over `n - 1`. -/
def sample_variance (pis : List ℚ) : ℚ :=
  (pis.map (fun x => (x - mean pis) ^ 2)).sum / ((pis.length - 1 : ℕ) : ℚ)

/-- `statistics.stdev`: the square root of the sample variance.  The
square root forces the idealised value into `ℝ`. -/
noncomputable def stdev (pis : List ℚ) : ℝ := Real.sqrt (sample_variance pis)

/-- The percentage error `100.0 * abs(approx_pi - np.pi) / np.pi`. -/
noncomputable def error_pct (approx_pi : ℚ) : ℝ :=
  100 * |(approx_pi : ℝ) - Real.pi| / Real.pi

lemma error_pct_nonneg (a : ℚ) : 0 ≤ error_pct a := by
  unfold error_pct
  have hpi := Real.pi_pos
  positivity

/-- `distrib_estimate_pi` from `pi.ipynb`: the remote-function version,
whose body just calls `estimate_pi` (the `@ray.remote` dispatch is
modelled as plain application, per the spec's description of remote
functions). -/
def distrib_estimate_pi (num_samples : ℕ) (xs ys : List ℚ) : Option ℚ :=
  estimate_pi num_samples xs ys

/-- The 5-tuple `(num_samples, duration, approx_pi, stdev, error)`
returned by a successful `run_epoch`. -/
noncomputable def epoch_stats (num_samples : ℕ) (duration : ℝ) (pis : List ℚ) :
    ℕ × ℝ × ℚ × ℝ × ℝ :=
  (num_samples, duration, mean pis, stdev pis, error_pct (mean pis))

/-- `run_epoch` from `pi.ipynb`.  The measured `duration` and the
per-trial coordinate draws `trials` are explicit inputs; `num_trials` is
the length of `trials`.  `statistics.stdev` raises with fewer than two
data points (and `statistics.mean` with zero), hence `none` when fewer
than two trial estimates are available. -/
noncomputable def run_epoch (num_samples : ℕ) (distrib : Bool) (duration : ℝ)
    (trials : List (List ℚ × List ℚ)) : Option (ℕ × ℝ × ℚ × ℝ × ℝ) :=
  match (if distrib then
          mapOpt (fun t => distrib_estimate_pi num_samples t.1 t.2) trials
         else
          mapOpt (fun t => estimate_pi num_samples t.1 t.2) trials) with
  | none => none
  | some pis =>
      if pis.length < 2 then none
      else some (epoch_stats num_samples duration pis)

lemma run_epoch_eq_of_pos (n : ℕ) (distrib : Bool) (d : ℝ)
    (trials : List (List ℚ × List ℚ)) (hn : 1 ≤ n) :
    run_epoch n distrib d trials =
      if trials.length < 2 then none
      else some (epoch_stats n d (trials.map (fun t => approx_val n t.1 t.2))) := by
  have hn0 : n ≠ 0 := by omega
  have hmap : mapOpt (fun t => estimate_pi n t.1 t.2) trials =
      some (trials.map (fun t => approx_val n t.1 t.2)) :=
    mapOpt_eq_map_of_forall _ _ _ (fun a _ => by simp [estimate_pi, hn0])
  cases distrib <;>
    simp [run_epoch, distrib_estimate_pi, hmap, List.length_map]

/-- The observable statistics of an epoch: everything except the
measured duration. -/
def epoch_obs (r : ℕ × ℝ × ℚ × ℝ × ℝ) : ℕ × ℚ × ℝ × ℝ :=
  (r.1, r.2.2.1, r.2.2.2.1, r.2.2.2.2)

/-- **Claim C2.**  The distributed mode computes the same statistics as
the serial mode: `distrib_estimate_pi` returns exactly
`estimate_pi num_samples`, and `run_epoch` with `distrib := true`
produces the same `num_samples`, `approx_pi`, `stdev` and `error`
components as with `distrib := false`, given the same per-trial
coordinate draws; only the measured duration may differ. -/
theorem distrib_serial_equiv :
    (∀ (n : ℕ) (xs ys : List ℚ),
      distrib_estimate_pi n xs ys = estimate_pi n xs ys) ∧
    ∀ (n : ℕ) (d1 d2 : ℝ) (trials : List (List ℚ × List ℚ)),
      (run_epoch n true d1 trials).map epoch_obs =
      (run_epoch n false d2 trials).map epoch_obs := by
  refine ⟨fun n xs ys => rfl, ?_⟩
  intro n d1 d2 trials
  cases hm : mapOpt (fun t => estimate_pi n t.1 t.2) trials with
  | none => simp [run_epoch, distrib_estimate_pi, hm]
  | some pis =>
      by_cases hl : pis.length < 2
      · simp [run_epoch, distrib_estimate_pi, hm, hl]
      · simp [run_epoch, distrib_estimate_pi, hm, hl, epoch_obs, epoch_stats]

/-- Counterexample to C10 as stated: with `num_samples = 0` the trial
estimates themselves raise, so `run_epoch` fails even though
`num_trials = 2 ≥ 2`. -/
theorem run_epoch_zero_samples_counterexample :
    ([(([] : List ℚ), ([] : List ℚ)), ([], [])] :
        List (List ℚ × List ℚ)).length = 2 ∧
    run_epoch 0 false 0 [([], []), ([], [])] = none := by
  constructor
  · rfl
  · simp [run_epoch, mapOpt, estimate_pi]

/-- **Claim C10 (amended).**  Provided `num_samples ≥ 1` (so that each
trial estimate is defined), `run_epoch` returns normally if and only if
`num_trials ≥ 2`; on success it returns the 5-tuple
`(num_samples, duration, approx_pi, stdev, error)` with
`error = 100 * |approx_pi - π| / π ≥ 0`. -/
theorem run_epoch_normal_iff (n : ℕ) (distrib : Bool) (d : ℝ)
    (trials : List (List ℚ × List ℚ)) (hn : 1 ≤ n) :
    ((run_epoch n distrib d trials).isSome ↔ 2 ≤ trials.length) ∧
    ∀ r, run_epoch n distrib d trials = some r →
      r = epoch_stats n d (trials.map (fun t => approx_val n t.1 t.2)) ∧
      r.2.2.2.2 = error_pct r.2.2.1 ∧ 0 ≤ r.2.2.2.2 := by
  rw [run_epoch_eq_of_pos n distrib d trials hn]
  constructor
  · by_cases hl : trials.length < 2
    · simp only [hl, if_true, Option.isSome_none]
      constructor
      · intro h
        exact absurd h (by decide)
      · intro h
        omega
    · simp only [hl, if_false, Option.isSome_some]
      constructor
      · intro _
        omega
      · intro _
        trivial
  · intro r hr
    have hl : ¬ trials.length < 2 := by
      by_contra h
      simp [h] at hr
    simp only [hl, if_false, Option.some.injEq] at hr
    refine ⟨hr.symm, ?_, ?_⟩
    · rw [← hr]
      rfl
    · rw [← hr]
      exact error_pct_nonneg _

/-- Witness for C10 (amended) at a concrete input. -/
theorem run_epoch_normal_iff_witness :
    (run_epoch 1 false 0 [([], []), ([], [])]).isSome :=
  ((run_epoch_normal_iff 1 false 0 [([], []), ([], [])] (by decide)).1).mpr
    (by decide)

/-! ### The `Sim` wrapper class -/

/-- Python `range(start, stop, step)` for a positive step. -/
def rangeStep (start stop step : ℕ) : List ℕ :=
  (List.range ((stop - start + step - 1) / step)).map (fun i => start + i * step)

lemma rangeStep_start_le {start stop step n : ℕ}
    (h : n ∈ rangeStep start stop step) : start ≤ n := by
  unfold rangeStep at h
  simp only [List.mem_map, List.mem_range] at h
  obtain ⟨i, _, rfl⟩ := h
  exact Nat.le_add_right _ _

lemma rangeStep_pairwise (start stop step : ℕ) (h : 1 ≤ step) :
    List.Pairwise (· < ·) (rangeStep start stop step) := by
  unfold rangeStep
  refine List.Pairwise.map _ ?_ (List.pairwise_lt_range _)
  intro a b hab
  have h1 : a * step < b * step :=
    Nat.mul_lt_mul_of_lt_of_le hab (le_refl step) (by omega)
  omega

/-- The `Sim` data class of `pi.ipynb`: configuration fields plus the
`df` table of epoch rows (one 5-tuple per epoch), `None` until `run` has
stored results. -/
structure Sim where
  distrib : Bool
  num_samples : ℕ
  num_trials : ℕ
  step_size : ℕ
  df : Option (List (ℕ × ℝ × ℚ × ℝ × ℝ))

/-- Class constant `NUM_SAMPLES = 1000000`. -/
def Sim.NUM_SAMPLES : ℕ := 1000000

/-- Class constant `NUM_TRIALS = 20`. -/
def Sim.NUM_TRIALS : ℕ := 20

/-- Class constant `STEP_SIZE = int(NUM_SAMPLES / 25)`. -/
def Sim.STEP_SIZE : ℕ := Sim.NUM_SAMPLES / 25

/-- `Sim.__init__`: stores the configuration and sets `df = None`. -/
def Sim.init (distrib : Bool) (num_samples num_trials step_size : ℕ) : Sim :=
  ⟨distrib, num_samples, num_trials, step_size, none⟩

/-- `Sim.run`: evaluates `run_epoch(n, num_trials, distrib)` for every
`n` in `range(2, num_samples, step_size)`, stores the rows in `df`, and
returns the object itself.  The per-epoch durations and coordinate draws
are explicit inputs; `sampler n` must supply `num_trials` trials. -/
noncomputable def Sim.run (s : Sim) (dur : ℕ → ℝ)
    (sampler : ℕ → List (List ℚ × List ℚ)) : Option Sim :=
  match mapOpt (fun n => run_epoch n s.distrib (dur n) (sampler n))
      (rangeStep 2 s.num_samples s.step_size) with
  | none => none
  | some rows => some { s with df := some rows }

/-- **Claim C3.**  Provided at least two trials per epoch, `Sim.run`
evaluates `run_epoch` for every `n` in
`range(2, num_samples, step_size)`, stores the resulting 5-tuples
`(n, duration, approx_pi, stdev, error)` as the `df` table — one row per
value of `n`, whose first components are exactly the `n` values, in
strictly increasing order — and returns the `Sim` object itself with the
other fields unchanged. -/
theorem Sim_run_table (s : Sim) (dur : ℕ → ℝ)
    (sampler : ℕ → List (List ℚ × List ℚ))
    (ht : 2 ≤ s.num_trials)
    (hs : ∀ n, (sampler n).length = s.num_trials)
    (hst : 1 ≤ s.step_size) :
    Sim.run s dur sampler =
      some { s with df := some ((rangeStep 2 s.num_samples s.step_size).map
        (fun n => epoch_stats n (dur n)
          ((sampler n).map (fun t => approx_val n t.1 t.2)))) } ∧
    (∀ n ∈ rangeStep 2 s.num_samples s.step_size,
      run_epoch n s.distrib (dur n) (sampler n) =
        some (epoch_stats n (dur n)
          ((sampler n).map (fun t => approx_val n t.1 t.2)))) ∧
    ((rangeStep 2 s.num_samples s.step_size).map
        (fun n => epoch_stats n (dur n)
          ((sampler n).map (fun t => approx_val n t.1 t.2)))).map Prod.fst =
      rangeStep 2 s.num_samples s.step_size ∧
    List.Pairwise (· < ·) (rangeStep 2 s.num_samples s.step_size) := by
  have hrow : ∀ n ∈ rangeStep 2 s.num_samples s.step_size,
      run_epoch n s.distrib (dur n) (sampler n) =
        some (epoch_stats n (dur n)
          ((sampler n).map (fun t => approx_val n t.1 t.2))) := by
    intro n hn
    have h2 : 2 ≤ n := rangeStep_start_le hn
    rw [run_epoch_eq_of_pos n s.distrib (dur n) (sampler n) (by omega)]
    have hlen : ¬(sampler n).length < 2 := by
      rw [hs n]
      omega
    simp [hlen]
  refine ⟨?_, hrow, ?_, rangeStep_pairwise 2 s.num_samples s.step_size hst⟩
  · unfold Sim.run
    rw [mapOpt_eq_map_of_forall _ _ _ hrow]
  · rw [List.map_map]
    conv_rhs => rw [← List.map_id (rangeStep 2 s.num_samples s.step_size)]
    apply List.map_congr_left
    intro n _
    rfl

/-- Witness for C3 at a concrete configuration (`num_samples = 10`,
`num_trials = 2`, `step_size = 4`, empty coordinate draws). -/
theorem Sim_run_table_witness :
    (Sim.run ⟨false, 10, 2, 4, none⟩ (fun _ => 0)
      (fun _ => [([], []), ([], [])])).isSome := by
  rw [(Sim_run_table ⟨false, 10, 2, 4, none⟩ (fun _ => 0)
    (fun _ => [([], []), ([], [])]) (by decide) (fun n => rfl) (by decide)).1]
  rfl

/-! ### Remote objects: the shared store

The distributed runtime is not part of the repository, so the store is
modelled from the specification's glossary: a remote object is a value
placed into a shared store and referenced by a handle usable across
processes. -/

/-- Modelled from the spec: the shared object store of the external
runtime (not present in the repository), holding the values placed by
`ray.put` in order. -/
structure Store (α : Type) where
  objects : List α

/-- The store of a fresh session: no objects yet. -/
def Store.empty (α : Type) : Store α := ⟨[]⟩

/-- Modelled from the spec: `ray.put` places a value into the shared
store and returns the updated store together with the handle
(`ObjectRef`) under which the value is retrievable. -/
def ray_put {α : Type} (s : Store α) (v : α) : Store α × ℕ :=
  (⟨s.objects ++ [v]⟩, s.objects.length)

/-- Modelled from the spec: `ray.get` resolves a handle to the stored
value; an unknown handle blocks forever / fails, hence `Option`. -/
def ray_get {α : Type} (s : Store α) (h : ℕ) : Option α :=
  s.objects.get? h

/-- Sequential puts, as in the comprehension
`[ray.put(i) for i in range(3)]`: each put extends the store produced by
the previous one; the handles are collected in order. -/
def ray_put_list {α : Type} (s : Store α) : List α → Store α × List ℕ
  | [] => (s, [])
  | v :: vt =>
      ((ray_put_list (ray_put s v).1 vt).1,
        (ray_put s v).2 :: (ray_put_list (ray_put s v).1 vt).2)

/-- `ray.get` applied to a list of handles resolves each in order. -/
def ray_get_list {α : Type} (s : Store α) (hs : List ℕ) : Option (List α) :=
  mapOpt (ray_get s) hs

/-- **Claim C4.**  Placing a value in the shared store and retrieving it
through its handle is the identity round trip; in particular retrieving
the handle of `[23, 42, 93]` yields `[23, 42, 93]`, and resolving the
handles of `[ray.put(i) for i in range(3)]` yields `[0, 1, 2]` in
order. -/
theorem put_get_roundtrip :
    (∀ (α : Type) (s : Store α) (v : α),
      ray_get (ray_put s v).1 (ray_put s v).2 = some v) ∧
    ray_get (ray_put (Store.empty (List ℤ)) [23, 42, 93]).1
      (ray_put (Store.empty (List ℤ)) [23, 42, 93]).2 = some [23, 42, 93] ∧
    ray_get_list (ray_put_list (Store.empty ℤ) [0, 1, 2]).1
      (ray_put_list (Store.empty ℤ) [0, 1, 2]).2 = some [0, 1, 2] := by
  refine ⟨?_, by decide, by decide⟩
  intro α s v
  unfold ray_get ray_put
  simp [List.get?_concat_length]

/-! ### Remote functions: futures resolving to the plain application

Modelled from the spec: invoking a remote function dispatches its body
to a worker and immediately returns a future; handle arguments are
resolved to their underlying values before the body runs, and the result
is itself stored and retrieved through the returned handle. -/

/-- The values the remote-function notebooks move around: integers and
lists of integers. -/
inductive RVal : Type where
  | int : ℤ → RVal
  | intList : List ℤ → RVal
deriving DecidableEq

/-- An argument of a remote invocation: either a plain value or a handle
into the shared store. -/
inductive RArg : Type where
  | val : RVal → RArg
  | ref : ℕ → RArg

/-- Modelled from the spec: handle arguments are resolved to their
underlying stored values before the body runs. -/
def resolve (s : Store RVal) : RArg → Option RVal
  | RArg.val v => some v
  | RArg.ref h => ray_get s h

/-- Modelled from the spec: a remote invocation resolves the arguments,
applies the plain function body (which may itself raise, hence
`Option`), stores the result, and returns the handle as the future. -/
def remote_task (s : Store RVal) (body : List RVal → Option RVal)
    (args : List RArg) : Option (Store RVal × ℕ) :=
  match mapOpt (resolve s) args with
  | none => none
  | some vs =>
      match body vs with
      | none => none
      | some r => some (ray_put s r)

/-- The body of `my_function` from the remote-functions notebook:
`return 42`. -/
def my_function_42 : List RVal → Option RVal := fun _ => some (RVal.int 42)

/-- The body of `my_function` from the remote-objects notebook:
`return sum(num_list)` (a single list-valued argument; anything else is
a Python `TypeError`). -/
def my_function_sum : List RVal → Option RVal
  | [RVal.intList xs] => some (RVal.int xs.sum)
  | _ => none

/-- **Claim C5.**  Resolving the future of a remote invocation yields
the plain function body applied to the resolved arguments; concretely,
`ray.get(my_function.remote())` is `42`, and the remote summation
applied to the handle of `[23, 42, 93]` resolves to
`sum([23, 42, 93]) = 158`. -/
theorem remote_function_resolution :
    (∀ (s : Store RVal) (body : List RVal → Option RVal) (args : List RArg)
      (vs : List RVal) (r : RVal),
      mapOpt (resolve s) args = some vs → body vs = some r →
      ∃ s2 h, remote_task s body args = some (s2, h) ∧
        ray_get s2 h = some r) ∧
    (∃ s2 h, remote_task (Store.empty RVal) my_function_42 [] = some (s2, h) ∧
      ray_get s2 h = some (RVal.int 42)) ∧
    (∃ s2 h,
      remote_task (ray_put (Store.empty RVal) (RVal.intList [23, 42, 93])).1
        my_function_sum
        [RArg.ref (ray_put (Store.empty RVal) (RVal.intList [23, 42, 93])).2] =
        some (s2, h) ∧
      ray_get s2 h = some (RVal.int 158) ∧
      ([23, 42, 93] : List ℤ).sum = 158) := by
  refine ⟨?_, ⟨_, _, rfl, by decide⟩, ⟨_, _, rfl, by decide, by decide⟩⟩
  intro s body args vs r hargs hbody
  refine ⟨(ray_put s r).1, (ray_put s r).2, ?_, ?_⟩
  · unfold remote_task
    rw [hargs]
    simp [hbody]
  · unfold ray_get ray_put
    simp [List.get?_concat_length]

/-- Witness for C5: the general resolution property applied to the
no-argument constant body returning `42`. -/
theorem remote_function_resolution_witness :
    ∃ s2 h, remote_task (Store.empty RVal) my_function_42 [] = some (s2, h) ∧
      ray_get s2 h = some (RVal.int 42) :=
  remote_function_resolution.1 (Store.empty RVal) my_function_42 [] []
    (RVal.int 42) rfl rfl

/-! ### The multiprocessing-pool comparison (`ex_04_mult_pool.ipynb`) -/

/-- `my_function` from `ex_04_mult_pool.ipynb`: `return x ** 2` (the
`time.sleep(1)` only burns wall-clock time and has no effect on the
value). -/
def my_function_sq (x : ℤ) : ℤ := x ^ 2

/-- Python `range(n)` as a list of integers. -/
def pyRange (n : ℕ) : List ℤ := (List.range n).map (fun i : ℕ => (i : ℤ))

/-- Modelled from the spec: the built-in `multiprocessing.Pool.map`
(external library) applies the function to every element and returns the
results in input order. -/
def builtin_pool_map {α β : Type} (f : α → β) (xs : List α) : List β :=
  xs.map f

/-- Split a list into chunks of size `c` (the last chunk may be
shorter). -/
def chunkList {α : Type} (c : ℕ) : List α → List (List α)
  | [] => []
  | x :: xt => (x :: xt.take (c - 1)) :: chunkList c (xt.drop (c - 1))
termination_by xs => xs.length
decreasing_by
  simp only [List.length_drop, List.length_cons]
  omega

lemma chunkList_flatten_aux {α : Type} (c : ℕ) :
    ∀ (n : ℕ) (xs : List α), xs.length ≤ n → (chunkList c xs).flatten = xs := by
  intro n
  induction n with
  | zero =>
      intro xs h
      have hx : xs = [] := by
        cases xs with
        | nil => rfl
        | cons a t => simp at h
      simp [hx, chunkList]
  | succ m ih =>
      intro xs h
      cases xs with
      | nil => simp [chunkList]
      | cons x xt =>
          have h2 : xt.length ≤ m := by
            simp only [List.length_cons] at h
            omega
          rw [chunkList]
          simp only [List.flatten_cons]
          rw [ih (xt.drop (c - 1)) (by simp only [List.length_drop]; omega)]
          simp [List.take_append_drop]

lemma chunkList_flatten {α : Type} (c : ℕ) (xs : List α) :
    (chunkList c xs).flatten = xs :=
  chunkList_flatten_aux c xs.length xs (le_refl _)

/-- Modelled from the spec: the compatibility shim
`ray.util.multiprocessing.Pool.map` (external library) splits the input
into chunks, dispatches each chunk to a worker, and concatenates the
per-chunk results in input order. -/
def ray_pool_map {α β : Type} (f : α → β) (chunksize : ℕ)
    (xs : List α) : List β :=
  ((chunkList chunksize xs).map (fun chunk => chunk.map f)).flatten

lemma ray_pool_map_eq_map {α β : Type} (f : α → β) (c : ℕ) (xs : List α) :
    ray_pool_map f c xs = xs.map f := by
  unfold ray_pool_map
  rw [← List.map_flatten, chunkList_flatten]

/-- **Claim C6.**  The multiprocessing-pool compatibility shim is
observationally equivalent to the built-in pool and to sequential
application on the notebook's workload: for any chunking,
`pool.map(my_function, range(50))` yields exactly
`[x ** 2 for x in range(50)]`, the same values in the same order as the
built-in pool's `map`. -/
theorem pool_map_equiv :
    (∀ (α β : Type) (f : α → β) (c : ℕ) (xs : List α),
      ray_pool_map f c xs = builtin_pool_map f xs) ∧
    (∀ c : ℕ, ray_pool_map my_function_sq c (pyRange 50) =
      (pyRange 50).map (fun x => x ^ 2)) ∧
    (∀ c : ℕ, ray_pool_map my_function_sq c (pyRange 50) =
      builtin_pool_map my_function_sq (pyRange 50)) := by
  have h : ∀ (α β : Type) (f : α → β) (c : ℕ) (xs : List α),
      ray_pool_map f c xs = builtin_pool_map f xs := by
    intro α β f c xs
    rw [ray_pool_map_eq_map]
    rfl
  exact ⟨h, fun c => h ℤ ℤ my_function_sq c (pyRange 50),
    fun c => h ℤ ℤ my_function_sq c (pyRange 50)⟩

/-! ### Actors: the `Counter` class

The `Counter` class body is repository code; the actor dispatch is
modelled from the spec: a stateful object whose methods execute serially
on a dedicated worker, so a sequence of `increment` calls is a serial
thread of state. -/

/-- The `Counter` actor class: its single field `value`. -/
structure Counter where
  value : ℤ

/-- `Counter.__init__`: `self.value = 0`. -/
def Counter.new : Counter := ⟨0⟩

/-- `Counter.increment`: `self.value += 1; return self.value`. -/
def Counter.increment (c : Counter) : Counter × ℤ :=
  (⟨c.value + 1⟩, c.value + 1)

/-- Modelled from the spec: actor methods execute serially on the
actor's dedicated worker, so `n` `increment` calls form a serial thread
of state; the returned values are collected in call order. -/
def runIncrements : Counter → ℕ → Counter × List ℤ
  | c, 0 => (c, [])
  | c, Nat.succ n =>
      ((runIncrements (Counter.increment c).1 n).1,
        (Counter.increment c).2 :: (runIncrements (Counter.increment c).1 n).2)

lemma runIncrements_fst (v : ℤ) (n : ℕ) :
    (runIncrements ⟨v⟩ n).1.value = v + n := by
  induction n generalizing v with
  | zero => simp [runIncrements]
  | succ m ih =>
      simp only [runIncrements, Counter.increment]
      rw [ih (v + 1)]
      push_cast
      ring

lemma runIncrements_snd (v : ℤ) (n : ℕ) :
    (runIncrements ⟨v⟩ n).2 =
      (List.range n).map (fun i : ℕ => v + (i : ℤ) + 1) := by
  induction n generalizing v with
  | zero => simp [runIncrements]
  | succ m ih =>
      simp only [runIncrements, Counter.increment]
      rw [ih (v + 1), List.range_succ_eq_map, List.map_cons, List.map_map]
      congr 1
      · push_cast
        ring
      · apply List.map_congr_left
        intro i _
        simp only [Function.comp_apply]
        push_cast
        ring

/-- **Claim C7.**  Starting from `value = 0`, the `i`-th `increment`
call in a serial sequence returns `i` (1-based), the `value` field
equals the number of increments performed, and the returned values are
strictly increasing. -/
theorem counter_increment_serial (n : ℕ) :
    (runIncrements Counter.new n).2 =
      (List.range n).map (fun i : ℕ => (i : ℤ) + 1) ∧
    (runIncrements Counter.new n).1.value = n ∧
    (∀ i, i < n →
      (runIncrements Counter.new n).2.get? i = some ((i : ℤ) + 1)) ∧
    List.Pairwise (· < ·) (runIncrements Counter.new n).2 := by
  have hsnd : (runIncrements Counter.new n).2 =
      (List.range n).map (fun i : ℕ => (i : ℤ) + 1) := by
    rw [show Counter.new = ⟨0⟩ from rfl, runIncrements_snd]
    apply List.map_congr_left
    intro i _
    ring
  refine ⟨hsnd, ?_, ?_, ?_⟩
  · rw [show Counter.new = ⟨0⟩ from rfl, runIncrements_fst]
    ring
  · intro i hi
    rw [hsnd, List.get?_map, List.get?_range hi]
    rfl
  · rw [hsnd]
    refine List.Pairwise.map _ ?_ (List.pairwise_lt_range n)
    intro a b hab
    have : (a : ℤ) < (b : ℤ) := by exact_mod_cast hab
    omega

/-- Witness for C7 at `n = 3`: the three increments return `1, 2, 3` and
leave `value = 3`. -/
theorem counter_increment_serial_witness :
    (runIncrements Counter.new 3).2.get? 1 = some 2 ∧
    (runIncrements Counter.new 3).1.value = 3 := by
  refine ⟨?_, by exact_mod_cast (counter_increment_serial 3).2.1⟩
  have h := (counter_increment_serial 3).2.2.1 1 (by decide)
  rw [h]
  norm_num

/-! ### Parallel iterators: `from_items`, `shards`, `gather_sync` -/

/-- Modelled from the spec: shard `i` of a parallel iterator holds the
original items at positions congruent to `i` modulo the shard count
(round-robin sharding by the external `ray.util.iter.from_items`, not
present in the repository). -/
def shardOf {α : Type} (items : List α) (k i : ℕ) : List α :=
  ((items.enum).filter (fun p => p.1 % k == i)).map Prod.snd

/-- Modelled from the spec: `from_items(items, num_shards)` builds the
list of `num_shards` shards of the sequence. -/
def from_items {α : Type} (items : List α) (num_shards : ℕ) :
    List (List α) :=
  (List.range num_shards).map (fun i => shardOf items num_shards i)

/-- Modelled from the spec: `gather_sync()` is a local iterator that
fetches the next item from each shard in turn (round-robin over the
shards). -/
def gather_sync {α : Type} (shards : List (List α)) : List α :=
  shards.transpose.flatten

/-- **Claim C8.**  `from_items([1, 2, 3, 4, 5], num_shards=2)` shards
the sequence without loss or duplication: the two shards partition the
items (each of the five items occurs exactly once overall), and
`gather_sync()` yields exactly the multiset of the original items. -/
theorem from_items_partition :
    from_items ([1, 2, 3, 4, 5] : List ℤ) 2 = [[1, 3, 5], [2, 4]] ∧
    ([1, 2, 3, 4, 5] : List ℤ).map
      (fun x => ((from_items ([1, 2, 3, 4, 5] : List ℤ) 2).flatten).count x) =
      [1, 1, 1, 1, 1] ∧
    Multiset.ofList ((from_items ([1, 2, 3, 4, 5] : List ℤ) 2).flatten) =
      Multiset.ofList [1, 2, 3, 4, 5] ∧
    gather_sync (from_items ([1, 2, 3, 4, 5] : List ℤ) 2) =
      [1, 2, 3, 4, 5] ∧
    Multiset.ofList (gather_sync (from_items ([1, 2, 3, 4, 5] : List ℤ) 2)) =
      Multiset.ofList [1, 2, 3, 4, 5] := by
  refine ⟨by decide, by decide, ?_, by decide, ?_⟩
  · have h : (from_items ([1, 2, 3, 4, 5] : List ℤ) 2).flatten =
        [1, 3, 5, 2, 4] := by decide
    rw [h]
    decide
  · have h : gather_sync (from_items ([1, 2, 3, 4, 5] : List ℤ) 2) =
        [1, 2, 3, 4, 5] := by decide
    rw [h]

end RayTutorial
